import Mathlib

/-!
Verification of the BIG-IP configuration parser (`bigip_config_parser.py`).

The parser turns a mapping from file names to raw configuration text into a
JSON-like document.  This file gives a shallow embedding of the parser class
`BigIPConfigParser` — its preprocessing pass, root-object grouper
(`group_objects`), recursive object builder (`orchestrate`) and batch driver
(`parse_files`) — together with theorems about the embedded functions.

Python strings are modelled as Lean `String`s, manipulated through explicit
character-list functions that mirror the exact Python semantics used by the
source (`str.strip`, `str.split`, `str.count`, slicing, `re.sub` of the two
fixed patterns, and so on).  Python `dict`s (insertion-ordered, last write
wins) are modelled as association lists with an insert-or-replace operation.
Exceptions are modelled with `Except String`.
-/

set_option maxRecDepth 20000

/-- Characters stripped by Python `str.strip()` / `str.lstrip()`. -/
def isPySpace (c : Char) : Bool :=
  c = ' ' || c = '\t' || c = '\n' || c = '\r' || c = '\x0b' || c = '\x0c'

/-- Python `str.lstrip()`. -/
def plstrip (s : String) : String :=
  String.mk (s.toList.dropWhile isPySpace)

/-- Python `str.strip()`. -/
def pstrip (s : String) : String :=
  String.mk (((s.toList.dropWhile isPySpace).reverse.dropWhile isPySpace).reverse)

/-- Does `pat` occur at the head of `s`? (Helper for substring search.) -/
def leadMatch : List Char → List Char → Bool
  | [], _ => true
  | _ :: _, [] => false
  | p :: ps, c :: cs => p = c && leadMatch ps cs

/-- Python `pat in s` (substring containment). -/
def hasSub (pat : List Char) : List Char → Bool
  | [] => leadMatch pat []
  | c :: cs => leadMatch pat (c :: cs) || hasSub pat cs

/-- Python `pat in s` on `String`s. -/
def strIn (pat s : String) : Bool :=
  hasSub pat.toList s.toList

/-- Python `s.startswith(pre)`. -/
def pyStartsWith (s pre : String) : Bool :=
  leadMatch pre.toList s.toList

/-- Python `s.endswith(suf)`. -/
def pyEndsWith (s suf : String) : Bool :=
  leadMatch suf.toList.reverse s.toList.reverse

/-- Python `c in s` for a single character. -/
def charIn (c : Char) (s : String) : Bool :=
  s.toList.any (· = c)

/-- Occurrences of a character in a character list (Python `str.count(c)`). -/
def countCharL (c : Char) (l : List Char) : Nat :=
  (l.filter (· = c)).length

/-- Python `s.count(c)` for a single-character needle. -/
def countChar (c : Char) (s : String) : Nat :=
  countCharL c s.toList

/-- Python `s.index(pat)`: position of the first occurrence of `pat`. -/
def idxSub (pat : List Char) : List Char → Option Nat
  | [] => if leadMatch pat [] then some 0 else none
  | c :: cs =>
    if leadMatch pat (c :: cs) then some 0
    else (idxSub pat cs).map (· + 1)

/-- Python slice `s[a:b]` (for `0 ≤ a`, `0 ≤ b`). -/
def strSlice (a b : Nat) (s : String) : String :=
  String.mk ((s.toList.drop a).take (b - a))

/-- Python slice `s[n:]`. -/
def strDrop (n : Nat) (s : String) : String :=
  String.mk (s.toList.drop n)

/-- Helper for `pySplitChar`: split a character list on a separator,
keeping empty segments, accumulator reversed. -/
def splitCharAux (sep : Char) : List Char → List Char → List (List Char)
  | acc, [] => [acc.reverse]
  | acc, c :: cs =>
    if c = sep then acc.reverse :: splitCharAux sep [] cs
    else splitCharAux sep (c :: acc) cs

/-- Python `s.split(sep)` for a one-character separator (keeps empties). -/
def pySplitChar (sep : Char) (s : String) : List String :=
  (splitCharAux sep [] s.toList).map String.mk

/-- Helper for `pySplitWs`: split on whitespace runs, dropping empties. -/
def wsSplitAux : List Char → List Char → List (List Char)
  | acc, [] => if acc.isEmpty then [] else [acc.reverse]
  | acc, c :: cs =>
    if isPySpace c then
      if acc.isEmpty then wsSplitAux [] cs else acc.reverse :: wsSplitAux [] cs
    else wsSplitAux (c :: acc) cs

/-- Python `s.split()` (no argument: split on whitespace runs, no empties). -/
def pySplitWs (s : String) : List String :=
  (wsSplitAux [] s.toList).map String.mk

/-- Join character lists with a separator character (Python `sep.join`). -/
def joinCharL (sep : Char) : List (List Char) → List Char
  | [] => []
  | [x] => x
  | x :: xs => x ++ sep :: joinCharL sep xs

/-- Python `sep.join(parts)` for a one-character separator. -/
def joinChar (sep : Char) (parts : List String) : String :=
  String.mk (joinCharL sep (parts.map String.toList))

/-- Python `s.replace('\r\n', '\n')` (left-to-right, non-overlapping). -/
def normNewlines : List Char → List Char
  | '\r' :: '\n' :: rest => '\n' :: normNewlines rest
  | c :: rest => c :: normNewlines rest
  | [] => []

/-- Python `s.replace('# ', '#comment# ')` (left-to-right, non-overlapping). -/
def markComments : List Char → List Char
  | '#' :: ' ' :: rest => "#comment# ".toList ++ markComments rest
  | c :: rest => c :: markComments rest
  | [] => []

/-- Python `re.sub(r'\\"', '', s)`: delete escaped-quote pairs. -/
def removeEsc : List Char → List Char
  | '\\' :: '"' :: rest => removeEsc rest
  | c :: rest => c :: removeEsc rest
  | [] => []

/-- Drop characters up to and including the next double quote, if any. -/
def dropToQuote : List Char → Option (List Char)
  | [] => none
  | '"' :: rest => some rest
  | _ :: rest => dropToQuote rest

/-- Fuelled worker for `removeQuoted`. -/
def removeQuotedF : Nat → List Char → List Char
  | _, [] => []
  | 0, l => l
  | fuel + 1, '"' :: rest =>
    match dropToQuote rest with
    | some rest2 => removeQuotedF fuel rest2
    | none => '"' :: rest
  | fuel + 1, c :: rest => c :: removeQuotedF fuel rest

/-- Python `re.sub(r'"[^"]*"', '', s)`: delete complete double-quoted
substrings (an unmatched final quote and its tail survive). -/
def removeQuoted (l : List Char) : List Char :=
  removeQuotedF l.length l

/-! ## The data model

`Value` is the JSON-compatible tagged union built by the parser
(`ObjectMap` / `ScalarString`-`RawText` / `TokenList` of the spec);
documents and object maps are insertion-ordered association lists. -/

/-- A parsed configuration value. -/
inductive Value where
  | obj (entries : List (String × Value))
  | str (s : String)
  | arr (items : List String)

/-- A parsed document / object map: insertion-ordered key-value pairs. -/
abbrev Doc := List (String × Value)

/-- Python `dict` assignment `d[k] = v` / `d.update({k: v})`: replace in
place if the key exists, otherwise append. -/
def upsert : Doc → String × Value → Doc
  | [], kv => [kv]
  | (k, v) :: t, kv => if k = kv.1 then (k, kv.2) :: t else (k, v) :: upsert t kv

/-- Python `d[k]` / `k in d` as an option lookup (first matching key). -/
def lookupV : Doc → String → Option Value
  | [], _ => none
  | (k, v) :: t, n => if k = n then some v else lookupV t n

/-! ## Static methods of `BigIPConfigParser` -/

/-- `arr_to_multiline_str`: first token of the stripped first line becomes the
key; the rest of the first line and all following lines, newline-joined,
become the value.  Unpacking an empty split raises in Python. -/
def arr_to_multiline_str (arr : List String) : Except String (String × String) :=
  match arr with
  | [] => .error "list index out of range"
  | a0 :: t =>
    match pySplitWs (pstrip a0) with
    | [] => .error "not enough values to unpack (expected at least 1, got 0)"
    | k :: rest => .ok (k, joinChar '\n' (joinChar ' ' rest :: t))

/-- `count_indent`: `len(s) - len(s.lstrip())`. -/
def count_indent (s : String) : Nat :=
  s.toList.length - (s.toList.dropWhile isPySpace).length

/-- Matcher for `re.sub(r'\s?\{\s?}?$', '', s)`, working on the reversed
character list: an optional `}`, an optional whitespace character, a required
`{` and an optional whitespace character are removed from the end; if the
pattern does not match, the string is unchanged. -/
def titleCore (r : List Char) : List Char :=
  let r1 := match r with
            | '\x7d' :: t => t
            | _ => r
  let r2 := match r1 with
            | c :: t => if isPySpace c then t else r1
            | [] => r1
  match r2 with
  | '\x7b' :: t =>
    (match t with
     | c :: t2 => if isPySpace c then t2 else t
     | [] => t)
  | _ => r

/-- `get_title`: strip a trailing `{` (with optional surrounding whitespace
and optional `}`) from the end of the line, then `strip()`. -/
def get_title (s : String) : String :=
  pstrip (String.mk (titleCore s.toList.reverse).reverse)

/-- `obj_to_arr`: `line.split('{')[1].split('}')[0].strip().split()`. -/
def obj_to_arr (line : String) : List String :=
  pySplitWs (pstrip (((pySplitChar '\x7d' ((pySplitChar '\x7b' line).getD 1 "")).headD "")))

/-- `remove_indent`: drop four leading columns from every line indented by
more than one column. -/
def remove_indent (arr : List String) : List String :=
  arr.map (fun l => if count_indent l > 1 then strDrop 4 l else l)

/-- `str_to_obj`: first whitespace token is the key, the space-rejoined rest
is the value.  Unpacking an empty split raises in Python. -/
def str_to_obj (line : String) : Except String (String × String) :=
  match pySplitWs (pstrip line) with
  | [] => .error "not enough values to unpack (expected at least 1, got 0)"
  | k :: rest => .ok (k, joinChar ' ' rest)

/-- `is_rule`: does the string contain an ltm/gtm/pem rule header marker? -/
def is_rule (s : String) : Bool :=
  strIn "ltm rule" s || strIn "gtm rule" s || strIn "pem irule" s

/-! ## Root grouper (`group_objects`) -/

/-- Effective brace count of a line inside the grouping scan: the line is
stripped, escaped quotes are deleted, complete double-quoted substrings are
deleted, and then `{`s minus `}`s are counted. -/
def effCount (line : String) : Int :=
  let u := removeQuoted (removeEsc (pstrip line).toList)
  (countCharL '\x7b' u : Int) - (countCharL '\x7d' u : Int)

/-- The inner `while bracket_count != 0` scan of `group_objects`; returns the
number of lines (after the header) included in the group.  Comment / `set` /
`STREAM` lines do not contribute to the count inside a rule group; running
into another rule header aborts the group just before that line; running out
of lines is Python's `IndexError`. -/
def scanGroup (ruleFlag : Bool) : Int → Nat → List String → Except String Nat
  | count, k, rem =>
    if count = 0 then .ok k
    else
      match rem with
      | [] => .error "list index out of range"
      | line :: rest =>
        let counted := !(ruleFlag &&
          (pyStartsWith (pstrip line) "#" || pyStartsWith (pstrip line) "set" ||
           pyStartsWith (pstrip line) "STREAM"))
        let count2 := if counted then count + effCount line else count
        if is_rule line then .ok k
        else scanGroup ruleFlag count2 (k + 1) rest

/-- Fuelled outer loop of `group_objects`; one fuel unit is spent per
examined top-level line, so fuel equal to the number of lines always
suffices. -/
def groupLoopF : Nat → List String → Except String (List (List String))
  | _, [] => .ok []
  | 0, _ :: _ => .error "group loop limit"
  | fuel + 1, line :: rest =>
    if charIn '\x7b' line && charIn '\x7d' line && !pyStartsWith line " " then
      (groupLoopF fuel rest).map (fun gs => [line] :: gs)
    else if pyEndsWith (pstrip line) "\x7b" && !pyStartsWith line " " then
      match scanGroup (is_rule line) 1 0 rest with
      | .error e => .error e
      | .ok k => (groupLoopF fuel (rest.drop k)).map (fun gs => (line :: rest.take k) :: gs)
    else
      groupLoopF fuel rest

/-- `group_objects`: partition the filtered lines into root-object groups. -/
def group_objects (arr : List String) : Except String (List (List String)) :=
  groupLoopF arr.length arr

/-! ## Object builder (`orchestrate`) -/

/-- Relative index of the first line equal to the four-column closing brace
`    }` (the `next(...)` search of the nested-object branch). -/
def firstCloseIdx : List String → Option Nat
  | [] => none
  | l :: rest =>
    if l = "    \x7d" then some 0 else (firstCloseIdx rest).map (· + 1)

/-- Relative index of the last line with an odd number of double quotes.
The Python loop `for j, l in enumerate(arr[i:]): if l.count('"') % 2 == 1: c = j + i`
has no `break`, so `c` ends at the LAST matching line; since the opening line
itself matches, the result is never `none` when the head has an odd count. -/
def lastOddIdx (l : List String) : Option Nat :=
  ((l.enum.filter (fun p => countChar '"' p.2 % 2 = 1)).map Prod.fst).getLast?

/-- `obj.setdefault('user-defined', {}).update({p.1: p.2})`: merge a key-value
pair into the nested `user-defined` object map, creating it if absent;
Python raises `AttributeError` if the existing value is not a `dict`. -/
def setdefaultUpdate : Doc → String × String → Except String Doc
  | [], p => .ok [("user-defined", .obj [(p.1, .str p.2)])]
  | (k, v) :: t, p =>
    if k = "user-defined" then
      match v with
      | .obj m => .ok ((k, .obj (upsert m (p.1, .str p.2))) :: t)
      | _ => .error "AttributeError: object has no attribute update"
    else (setdefaultUpdate t p).map ((k, v) :: ·)

/-- The body-walking `while i < len(arr)` loop of `orchestrate`.  `orch` is
the recursive call used for nested objects, `blen` the (constant) length of
the body (`len(arr) != 1` in the source), `rem` the lines from the current
index on, `obj` the object map built so far.  One fuel unit is spent per
iteration and every iteration consumes at least one line, so fuel equal to
the body length always suffices. -/
def buildGo (orch : List String → Except String (String × Value)) (key : String)
    (blen : Nat) : Nat → List String → Doc → Except String Doc
  | _, [], obj => .ok obj
  | 0, _ :: _, _ => .error "loop limit"
  | fuel + 1, line :: rest, obj =>
    if pyEndsWith line "\x7b" && blen ≠ 1 then
      match firstCloseIdx (line :: rest) with
      | none => .error ("Missing or mis-indented \x27\x7d\x27 for line: \x27" ++ line ++ "\x27")
      | some c =>
        let sub := remove_indent ((line :: rest).take (c + 1))
        let coerce := sub.enum.map
          (fun p => if p.2 = "    \x7b" then toString p.1 ++ " " ++ p.2 else p.2)
        match orch coerce with
        | .error e => .error e
        | .ok kv => buildGo orch key blen fuel ((line :: rest).drop (c + 1)) (upsert obj kv)
    else if pyEndsWith (pstrip line) "\x7b \x7d" then
      buildGo orch key blen fuel rest
        (upsert obj (pstrip ((pySplitChar '\x7b' line).headD ""), .obj []))
    else if charIn '\x7b' line && charIn '\x7d' line && !charIn '"' line then
      buildGo orch key blen fuel rest
        (upsert obj (pstrip ((pySplitChar '\x7b' line).headD ""), .arr (obj_to_arr line)))
    else if (countChar ' ' (pstrip line) = 0 ||
             ((pstrip line).toList.length ≥ 2 && pyStartsWith (pstrip line) "\"" &&
              pyEndsWith (pstrip line) "\"")) && !charIn '\x7d' line then
      buildGo orch key blen fuel rest (upsert obj (pstrip line, .str ""))
    else if count_indent line = 4 then
      if countChar '"' line % 2 = 1 then
        match lastOddIdx (line :: rest) with
        | none => .error ("Unclosed quote in multiline string starting at: \x27" ++ line ++ "\x27")
        | some c =>
          match arr_to_multiline_str ((line :: rest).take (c + 1)) with
          | .error e => .error e
          | .ok kv =>
            buildGo orch key blen fuel ((line :: rest).drop (c + 1)) (upsert obj (kv.1, .str kv.2))
      else
        match str_to_obj (pstrip line) with
        | .error e => .error e
        | .ok kv =>
          if pyStartsWith key "gtm monitor external" && kv.1 = "user-defined" then
            match str_to_obj kv.2 with
            | .error e => .error e
            | .ok p =>
              match setdefaultUpdate obj p with
              | .error e => .error e
              | .ok obj2 => buildGo orch key blen fuel rest obj2
          else buildGo orch key blen fuel rest (upsert obj (kv.1, .str kv.2))
    else
      -- `print(f"Unexpected line: {line}")`: non-fatal diagnostic, line skipped
      buildGo orch key blen fuel rest obj

/-- Fuelled `orchestrate`: convert one root-object group into a key-value
pair.  One fuel unit is spent per nesting level, so fuel exceeding the group
length always suffices. -/
def orchestrateF : Nat → List String → Except String (String × Value)
  | 0, _ => .error "recursion limit"
  | fuel + 1, arr =>
    let key := get_title (arr.headD "")
    if arr.length ≤ 1 then .ok (key, .obj [])
    else
      let body := (arr.drop 1).dropLast
      if is_rule key then .ok (key, .str (joinChar '\n' body))
      else if strIn "monitor min" key then
        .ok (key, .arr (pySplitWs (joinChar ' ' (body.map pstrip))))
      else if strIn "cli script" key || strIn "sys crypto cert-order-manager" key then
        .ok (key, .obj [])
      else (buildGo (orchestrateF fuel) key body.length body.length body []).map
        (fun o => (key, .obj o))

/-- `orchestrate`: convert one group of lines into its `{title: value}` pair. -/
def orchestrate (arr : List String) : Except String (String × Value) :=
  orchestrateF (arr.length + 1) arr

/-! ## Preprocessing and the batch driver (`parse_files`) -/

/-- The per-file instance state of `BigIPConfigParser` (`self.topology_arr`,
`self.topology_count`, `self.longest_match_enabled`). -/
structure PState where
  topology_arr : List String
  topology_count : Nat
  longest_match_enabled : Bool

/-- The state of `BigIPConfigParser.__init__`. -/
def initState : PState :=
  { topology_arr := []
    topology_count := 0
    longest_match_enabled := false }

/-- Loop state of the per-line preprocessing pass inside `parse_files`
(instance fields plus the local variables `in_topology`, `irule`,
`new_file_arr`). -/
structure LoopSt where
  topology_arr : List String
  topology_count : Nat
  longest_match_enabled : Bool
  in_topology : Bool
  irule : Int
  new_file_arr : List String

/-- Convert an option to an exception, as Python `str.index` does. -/
def oGet : Option Nat → Except String Nat
  | some n => .ok n
  | none => .error "substring not found"

/-- One iteration of the preprocessing loop of `parse_files`: comment
marking, rule-depth tracking, and topology synthesis. -/
def preprocessLine (s : LoopSt) (line0 : String) : Except String LoopSt :=
  let li :=
    if s.irule = 0 then
      if pyStartsWith (pstrip line0) "# " then
        (String.mk (markComments (pstrip line0).toList), s.irule)
      else if is_rule line0 then (line0, s.irule + 1)
      else (line0, s.irule)
    else
      if !pyStartsWith (pstrip line0) "#" then
        (line0, s.irule + ((countChar '\x7b' line0 : Int) - (countChar '\x7d' line0 : Int)))
      else (line0, s.irule)
  let line := li.1
  let irule := li.2
  if strIn "topology-longest-match" line && strIn "yes" line then
    .ok { s with irule := irule
                 longest_match_enabled := true }
  else if pyStartsWith line "gtm topology ldns:" then
    let tarr0 := if s.topology_arr.isEmpty then
        ["gtm topology /Common/Shared/topology \x7b", "    records \x7b"]
      else s.topology_arr
    match oGet (idxSub "ldns:".toList line.toList),
          oGet (idxSub "server:".toList line.toList),
          oGet (idxSub "\x7b".toList line.toList) with
    | .error e, _, _ => .error e
    | .ok _, .error e, _ => .error e
    | .ok _, .ok _, .error e => .error e
    | .ok ldnsIdx, .ok serverIdx, .ok bracketIdx =>
    let ldns := pstrip (strSlice (ldnsIdx + 5) serverIdx line)
    let server := pstrip (strSlice (serverIdx + 7) bracketIdx line)
    .ok { s with irule := irule
                 in_topology := true
                 topology_count := s.topology_count + 1
                 topology_arr := tarr0 ++
                   ["        topology_" ++ toString s.topology_count ++ " \x7b",
                    "            source " ++ ldns,
                    "            destination " ++ server] }
  else if s.in_topology then
    if line = "\x7d" then
      .ok { s with irule := irule
                   in_topology := false
                   topology_arr := s.topology_arr ++ ["        \x7d"] }
    else
      .ok { s with irule := irule
                   topology_arr := s.topology_arr ++ ["        " ++ line] }
  else
    .ok { s with irule := irule
                 new_file_arr := s.new_file_arr ++ [line] }

/-- Fold the preprocessing step over the lines of a file, stopping at the
first exception. -/
def foldPre (s : LoopSt) : List String → Except String LoopSt
  | [] => .ok s
  | l :: rest =>
    match preprocessLine s l with
    | .error e => .error e
    | .ok s2 => foldPre s2 rest

/-- The whole preprocessing pass of `parse_files` for one file: reset the
instance state, normalize newlines and split into lines, run the per-line
loop, close the synthesized topology object, and filter out empty and
marked-comment lines.  Returns the new instance state and the filtered
lines. -/
def preprocessFile (_st : PState) (text : String) : Except String (PState × List String) :=
  let file_arr := pySplitChar '\n' (String.mk (normNewlines text.toList))
  let s0 : LoopSt := { topology_arr := []
                       topology_count := 0
                       longest_match_enabled := false
                       in_topology := false
                       irule := 0
                       new_file_arr := [] }
  match foldPre s0 file_arr with
  | .error e => .error e
  | .ok s =>
  let tarr :=
    if s.topology_arr.isEmpty then s.topology_arr
    else s.topology_arr ++
      ["        longest-match-enabled " ++ (if s.longest_match_enabled then "true" else "false"),
       "    \x7d", "\x7d"]
  let kept := (s.new_file_arr ++ tarr).filter
    (fun l => !(l = "") && !pyStartsWith (pstrip l) "#comment# ")
  .ok ({ topology_arr := tarr
         topology_count := s.topology_count
         longest_match_enabled := s.longest_match_enabled }, kept)

/-- Filenames never parsed (certificate bundles, the script config, license). -/
def excluded (name : String) : Bool :=
  strIn "Common_d" name || strIn "bigip_script.conf" name || strIn ".license" name

/-- Run `orchestrate` over every group, stopping at the first exception. -/
def mapOrch : List (List String) → Except String (List (String × Value))
  | [] => .ok []
  | g :: gs =>
    match orchestrate g with
    | .error e => .error e
    | .ok kv =>
      match mapOrch gs with
      | .error e => .error e
      | .ok rest => .ok (kv :: rest)

/-- Parse one file: preprocess, group, orchestrate every group, and build
the file's own `{key: value}` dictionary (the dict comprehension of
`parse_files`). -/
def processFile (st : PState) (text : String) : Except String (PState × Doc) :=
  match preprocessFile st text with
  | .error e => .error e
  | .ok (st2, lines) =>
    match group_objects lines with
    | .error e => .error e
    | .ok groups =>
      match mapOrch groups with
      | .error e => .error e
      | .ok pairs => .ok (st2, pairs.foldl upsert [])

/-- The `for key, value in files.items()` loop of `parse_files`. -/
def parseLoop (st : PState) (data : Doc) : List (String × String) → Except String Doc
  | [] => .ok data
  | (name, text) :: rest =>
    if excluded name then parseLoop st data rest
    else
      match processFile st text with
      | .error e => .error e
      | .ok (st2, fileDict) => parseLoop st2 (fileDict.foldl upsert data) rest

/-- `parse_files`: parse every file of the batch into one merged document;
any exception is wrapped with the fixed explanatory prefix and re-raised. -/
def parse_files (files : List (String × String)) : Except String Doc :=
  match parseLoop initState [] files with
  | .ok d => .ok d
  | .error e => .error ("Error parsing input file. Error as following error:\n" ++ e)

/-- The keys of a document, in order. -/
def keysOf (d : Doc) : List String :=
  d.map Prod.fst

/-- Sum of effective brace counts over a line range. -/
def psum (l : List String) : Int :=
  (l.map effCount).sum

/-! ## Well-formed root objects (for the grouping reconstruction property) -/

/-- A well-formed root object as a piece of input: either a single line
(empty object / pseudo-array) or a column-0 header with an indented body,
closed by a column-0 `}` line. -/
inductive RootBlock where
  | single (line : String)
  | multi (header : String) (body : List String)

/-- The lines a root block contributes to the input. -/
def blockLines : RootBlock → List String
  | .single l => [l]
  | .multi h b => h :: (b ++ ["\x7d"])

/-- A column-0 object header: a non-indented line that is either a one-line
braced object or ends (stripped) with an opening brace. -/
def isHeaderLine (l : String) : Bool :=
  !pyStartsWith l " " &&
    ((charIn '\x7b' l && charIn '\x7d' l) || pyEndsWith (pstrip l) "\x7b")

/-- Well-formedness of a root block: a single-line block is a column-0 line
with both braces; a multi-line block has a column-0 header (stripped-ending
in `{`, containing no `}`), no embedded script/rule header anywhere, body
lines that are not themselves column-0 headers, and a brace balance that
stays strictly positive over every proper prefix of the body and returns to
zero exactly at the closing line. -/
def goodBlock : RootBlock → Bool
  | .single l => charIn '\x7b' l && charIn '\x7d' l && !pyStartsWith l " " && !is_rule l
  | .multi h b =>
    !pyStartsWith h " " && pyEndsWith (pstrip h) "\x7b" && !charIn '\x7d' h && !is_rule h &&
    b.all (fun l => !is_rule l && !isHeaderLine l) &&
    (List.range (b.length + 1)).all (fun j => decide (0 < 1 + psum (b.take j))) &&
    decide (psum b = 0)

/-- The lines of a list of root blocks, in order. -/
def linesOfBlocks (blocks : List RootBlock) : List String :=
  (blocks.map blockLines).flatten

/-! ## Claim theorems -/

/-- C1 (counterexample): the claim fails as stated.  For an input file whose
lines are exactly the two single-line directives
`gtm topology ldns: net1 server: net2 { }` and one line
`topology-longest-match yes`, `parse_files` does NOT return a document at
all: the synthesized `topology_0` / `topology_1` records are opened but
never closed (the one-line `{ }` form contributes no closing-brace line), so
the root-grouping brace scan runs past the end of the input and the batch
fails with the wrapped index error. -/
theorem c1_single_line_directives_raise :
    parse_files [("file.conf",
      "gtm topology ldns: net1 server: net2 \x7b \x7d\ngtm topology ldns: net1 server: net2 \x7b \x7d\ntopology-longest-match yes")] =
    .error "Error parsing input file. Error as following error:\nlist index out of range" := by
  have hpre : preprocessFile initState
      "gtm topology ldns: net1 server: net2 \x7b \x7d\ngtm topology ldns: net1 server: net2 \x7b \x7d\ntopology-longest-match yes" =
      .ok ({ topology_arr := ["gtm topology /Common/Shared/topology \x7b", "    records \x7b",
              "        topology_0 \x7b", "            source net1", "            destination net2",
              "        topology_1 \x7b", "            source net1", "            destination net2",
              "        longest-match-enabled true", "    \x7d", "\x7d"]
             topology_count := 2
             longest_match_enabled := true },
            ["gtm topology /Common/Shared/topology \x7b", "    records \x7b",
              "        topology_0 \x7b", "            source net1", "            destination net2",
              "        topology_1 \x7b", "            source net1", "            destination net2",
              "        longest-match-enabled true", "    \x7d", "\x7d"]) := rfl
  have hgrp : group_objects ["gtm topology /Common/Shared/topology \x7b", "    records \x7b",
              "        topology_0 \x7b", "            source net1", "            destination net2",
              "        topology_1 \x7b", "            source net1", "            destination net2",
              "        longest-match-enabled true", "    \x7d", "\x7d"] =
      .error "list index out of range" := rfl
  have hex : excluded "file.conf" = false := rfl
  have hpf : processFile initState
      "gtm topology ldns: net1 server: net2 \x7b \x7d\ngtm topology ldns: net1 server: net2 \x7b \x7d\ntopology-longest-match yes" =
      .error "list index out of range" := by
    simp [processFile, hpre, hgrp]
  simp [parse_files, parseLoop, hex, hpf]

/-- C1 (amended): with the topology directives written in their two-line
form — `gtm topology ldns: net1 server: net2 {` followed by its closing `}`
line — plus one `topology-longest-match yes` line, `parse_files` returns a
document whose key `gtm topology /Common/Shared/topology` maps to a
`records` object with sub-objects `topology_0` and `topology_1`, each with
`source` `net1` and `destination` `net2`, and with `longest-match-enabled`
equal to the string `true` at the `records` level. -/
theorem c1_two_line_directives_build_topology_document :
    parse_files [("file.conf",
      "gtm topology ldns: net1 server: net2 \x7b\n\x7d\ngtm topology ldns: net1 server: net2 \x7b\n\x7d\ntopology-longest-match yes")] =
    .ok [("gtm topology /Common/Shared/topology", .obj
      [("records", .obj
        [("topology_0", .obj [("source", .str "net1"), ("destination", .str "net2")]),
         ("topology_1", .obj [("source", .str "net1"), ("destination", .str "net2")]),
         ("longest-match-enabled", .str "true")])])] := by
  have hpre : preprocessFile initState
      "gtm topology ldns: net1 server: net2 \x7b\n\x7d\ngtm topology ldns: net1 server: net2 \x7b\n\x7d\ntopology-longest-match yes" =
      .ok ({ topology_arr := ["gtm topology /Common/Shared/topology \x7b", "    records \x7b",
              "        topology_0 \x7b", "            source net1", "            destination net2",
              "        \x7d", "        topology_1 \x7b", "            source net1",
              "            destination net2", "        \x7d",
              "        longest-match-enabled true", "    \x7d", "\x7d"]
             topology_count := 2
             longest_match_enabled := true },
            ["gtm topology /Common/Shared/topology \x7b", "    records \x7b",
              "        topology_0 \x7b", "            source net1", "            destination net2",
              "        \x7d", "        topology_1 \x7b", "            source net1",
              "            destination net2", "        \x7d",
              "        longest-match-enabled true", "    \x7d", "\x7d"]) := rfl
  have hgrp : group_objects ["gtm topology /Common/Shared/topology \x7b", "    records \x7b",
              "        topology_0 \x7b", "            source net1", "            destination net2",
              "        \x7d", "        topology_1 \x7b", "            source net1",
              "            destination net2", "        \x7d",
              "        longest-match-enabled true", "    \x7d", "\x7d"] =
      .ok [["gtm topology /Common/Shared/topology \x7b", "    records \x7b",
              "        topology_0 \x7b", "            source net1", "            destination net2",
              "        \x7d", "        topology_1 \x7b", "            source net1",
              "            destination net2", "        \x7d",
              "        longest-match-enabled true", "    \x7d", "\x7d"]] := rfl
  have horch : mapOrch [["gtm topology /Common/Shared/topology \x7b", "    records \x7b",
              "        topology_0 \x7b", "            source net1", "            destination net2",
              "        \x7d", "        topology_1 \x7b", "            source net1",
              "            destination net2", "        \x7d",
              "        longest-match-enabled true", "    \x7d", "\x7d"]] =
      .ok [("gtm topology /Common/Shared/topology", .obj
        [("records", .obj
          [("topology_0", .obj [("source", .str "net1"), ("destination", .str "net2")]),
           ("topology_1", .obj [("source", .str "net1"), ("destination", .str "net2")]),
           ("longest-match-enabled", .str "true")])])] := rfl
  have hex : excluded "file.conf" = false := rfl
  have hpf : processFile initState
      "gtm topology ldns: net1 server: net2 \x7b\n\x7d\ngtm topology ldns: net1 server: net2 \x7b\n\x7d\ntopology-longest-match yes" =
      .ok ({ topology_arr := ["gtm topology /Common/Shared/topology \x7b", "    records \x7b",
              "        topology_0 \x7b", "            source net1", "            destination net2",
              "        \x7d", "        topology_1 \x7b", "            source net1",
              "            destination net2", "        \x7d",
              "        longest-match-enabled true", "    \x7d", "\x7d"]
             topology_count := 2
             longest_match_enabled := true },
            [("gtm topology /Common/Shared/topology", Value.obj
              [("records", .obj
                [("topology_0", .obj [("source", .str "net1"), ("destination", .str "net2")]),
                 ("topology_1", .obj [("source", .str "net1"), ("destination", .str "net2")]),
                 ("longest-match-enabled", .str "true")])])]) := by
    simp [processFile, hpre, hgrp, horch, List.foldl, upsert]
  simp [parse_files, parseLoop, hex, hpf, List.foldl, upsert]

/-- C4 (code bug): the Object Builder's multi-line-quoted-string scan is
documented (in the source's own comments and the spec) to close at the NEXT
line with an odd double-quote count, but the scanning loop has no `break`,
so it records the LAST such line.  On a body containing two multi-line
quoted properties `a "x` / `y"` and `b "p` / `q"`, the whole range through
the second string's closing line is joined into one value under the single
key `a`, instead of two pairs `a` and `b`. -/
theorem c4_multiline_scan_reaches_last_odd_line :
    orchestrate ["t \x7b", "    a \"x", "    y\"", "    b \"p", "    q\"", "\x7d"] =
    .ok ("t", .obj [("a", .str "\"x\n    y\"\n    b \"p\n    q\"")]) := rfl

/-- C5 (code bug): the `UnclosedQuote` branch of the Object Builder is dead
code.  The backward scan for an odd-quote line enumerates `arr[i:]`, whose
first element is the opening line itself (odd count by assumption), so `c`
is always assigned and the `raise` guarded by `c is None` can never fire.
A group whose multi-line quoted string is never closed is parsed silently:
the opening line alone becomes the pair `desc ↦ "unclosed` instead of
raising the documented fatal error. -/
theorem c5_unclosed_quote_is_silently_accepted :
    orchestrate ["t \x7b", "    desc \"unclosed", "\x7d"] =
    .ok ("t", .obj [("desc", .str "\"unclosed")]) := rfl

/-- C8 (counterexample): the claim fails for the root-level case.  A file
consisting of the single root-level line `foo { a b c }` parses to a
document whose only key is the whole line `foo { a b c }` (which is not
`foo`) mapped to the empty object, not to the token list `["a","b","c"]`:
the line becomes a one-line group, and one-line groups take the
`len(arr) <= 1` path of `orchestrate`, whose `get_title` cannot strip a
brace suffix followed by further text. -/
theorem c8_root_level_pseudo_array_is_empty_object :
    parse_files [("f.conf", "foo \x7b a b c \x7d")] =
      .ok [("foo \x7b a b c \x7d", .obj [])] ∧
    "foo \x7b a b c \x7d" ≠ "foo" := by
  constructor
  · have hpre : preprocessFile initState "foo \x7b a b c \x7d" =
        .ok (initState, ["foo \x7b a b c \x7d"]) := rfl
    have hgrp : group_objects ["foo \x7b a b c \x7d"] = .ok [["foo \x7b a b c \x7d"]] := rfl
    have horch : mapOrch [["foo \x7b a b c \x7d"]] =
        .ok [("foo \x7b a b c \x7d", .obj [])] := rfl
    have hex : excluded "f.conf" = false := rfl
    have hpf : processFile initState "foo \x7b a b c \x7d" =
        .ok (initState, [("foo \x7b a b c \x7d", Value.obj [])]) := by
      simp [processFile, hpre, hgrp, horch, List.foldl, upsert]
    simp [parse_files, parseLoop, hex, hpf, List.foldl, upsert]
  · decide

/-- C8 (amended): a pseudo-array line `foo { a b c }` parses to the key
`foo` mapped to the token list `["a","b","c"]` when it appears as a body
line inside an object; when it appears as a root-level line it instead
forms its own one-line group that parses to the whole line as key mapped to
the empty object. -/
theorem c8_pseudo_array_body_line_tokens :
    orchestrate ["parent \x7b", "    foo \x7b a b c \x7d", "\x7d"] =
      .ok ("parent", .obj [("foo", .arr ["a", "b", "c"])]) ∧
    orchestrate ["foo \x7b a b c \x7d"] = .ok ("foo \x7b a b c \x7d", .obj []) :=
  ⟨rfl, rfl⟩

/-- C3 (counterexample): the round trip fails as stated.  A rule body that
contains a blank line does not survive: the pre-grouping filter of
`parse_files` drops every empty line, so the `RawText` value of the rule
`ltm rule /Common/r` with original body lines `when X {`, `` (blank), `}`
is `"when X {\n}"`, whose newline-split is `["when X {", "}"]`, not the
original three body lines. -/
theorem c3_blank_line_in_rule_body_breaks_round_trip :
    parse_files [("f.conf", "ltm rule /Common/r \x7b\nwhen X \x7b\n\n\x7d\n\x7d")] =
      .ok [("ltm rule /Common/r", .str "when X \x7b\n\x7d")] ∧
    pySplitChar '\n' "when X \x7b\n\x7d" ≠ ["when X \x7b", "", "\x7d"] := by
  constructor
  · have hpre : preprocessFile initState "ltm rule /Common/r \x7b\nwhen X \x7b\n\n\x7d\n\x7d" =
        .ok (initState, ["ltm rule /Common/r \x7b", "when X \x7b", "\x7d", "\x7d"]) := rfl
    have hgrp : group_objects ["ltm rule /Common/r \x7b", "when X \x7b", "\x7d", "\x7d"] =
        .ok [["ltm rule /Common/r \x7b", "when X \x7b", "\x7d", "\x7d"]] := rfl
    have horch : mapOrch [["ltm rule /Common/r \x7b", "when X \x7b", "\x7d", "\x7d"]] =
        .ok [("ltm rule /Common/r", .str "when X \x7b\n\x7d")] := rfl
    have hex : excluded "f.conf" = false := rfl
    have hpf : processFile initState "ltm rule /Common/r \x7b\nwhen X \x7b\n\n\x7d\n\x7d" =
        .ok (initState, [("ltm rule /Common/r", Value.str "when X \x7b\n\x7d")]) := by
      simp [processFile, hpre, hgrp, horch, List.foldl, upsert]
    simp [parse_files, parseLoop, hex, hpf, List.foldl, upsert]
  · decide

/-- Splitting consumes a separator-free chunk into the accumulator. -/
lemma splitCharAux_chunk (sep : Char) (w : List Char) :
    ∀ (acc rest : List Char), (∀ c ∈ w, c ≠ sep) →
      splitCharAux sep acc (w ++ rest) = splitCharAux sep (w.reverse ++ acc) rest := by
  induction w with
  | nil => intro acc rest _; simp
  | cons c w ih =>
    intro acc rest h
    have hc : c ≠ sep := h c (by simp)
    simp only [List.cons_append, splitCharAux, if_neg hc, List.append_eq]
    rw [ih (c :: acc) rest (fun x hx => h x (by simp [hx]))]
    simp

/-- Splitting a separator-joined list of separator-free chunks recovers the
chunks. -/
lemma splitCharAux_joinCharL (sep : Char) :
    ∀ (parts : List (List Char)), parts ≠ [] → (∀ p ∈ parts, ∀ c ∈ p, c ≠ sep) →
      splitCharAux sep [] (joinCharL sep parts) = parts := by
  intro parts
  induction parts with
  | nil => intro h; exact absurd rfl h
  | cons p t ih =>
    intro _ h
    match t with
    | [] =>
      have := splitCharAux_chunk sep p [] [] (h p (by simp))
      simpa [joinCharL, splitCharAux] using this
    | q :: t2 =>
      have hstep := splitCharAux_chunk sep p [] (sep :: joinCharL sep (q :: t2))
        (h p (by simp))
      simp only [joinCharL] at hstep ⊢
      rw [hstep]
      simp only [splitCharAux, if_pos rfl]
      rw [ih (by simp) (fun x hx => h x (by simp [hx]))]
      simp

/-- `String.mk` is a left inverse of `String.toList`. -/
lemma mk_toList (s : String) : String.mk s.toList = s := rfl

/-- Round trip: splitting a separator-joined list of separator-free,
nonempty-list strings recovers the strings. -/
lemma pySplitChar_joinChar (sep : Char) (parts : List String) (hne : parts ≠ [])
    (h : ∀ p ∈ parts, charIn sep p = false) :
    pySplitChar sep (joinChar sep parts) = parts := by
  show List.map String.mk (splitCharAux sep [] (joinCharL sep (parts.map String.toList))) = parts
  rw [splitCharAux_joinCharL sep (parts.map String.toList)
    (by simpa using hne)
    (by
      intro p hp c hc
      obtain ⟨q, hq, rfl⟩ := List.mem_map.mp hp
      have := h q hq
      intro hcs
      subst hcs
      simp only [charIn, List.any_eq_false] at this
      exact this c hc (by simp))]
  rw [List.map_map]
  rw [show (String.mk ∘ String.toList) = id from funext fun s => mk_toList s, List.map_id]

/-- Dropping the final element of `l ++ [a]` gives back `l`. -/
lemma dropLast_append_single {α : Type} (l : List α) (a : α) :
    (l ++ [a]).dropLast = l := by
  simp

/-- C3 (amended): for every script/rule group — a header whose title matches
a rule marker, body lines, and a closing line — the value produced by the
Object Builder is the newline-join of the body lines verbatim; consequently,
when the body is nonempty (and its lines, being lines, contain no newline),
splitting the value on newlines reproduces the body lines exactly.  These
are the post-filter body lines: blank lines (and marked comment lines) of
the original file have already been removed by the pre-grouping filter of
`parse_files`, so only groups whose original body had no blank lines
round-trip to the input file. -/
theorem c3_rule_group_round_trip (hdr last : String) (body : List String)
    (hrule : is_rule (get_title hdr) = true)
    (hnl : ∀ l ∈ body, charIn '\n' l = false) :
    orchestrate (hdr :: (body ++ [last])) =
      .ok (get_title hdr, .str (joinChar '\n' body)) ∧
    (body ≠ [] → pySplitChar '\n' (joinChar '\n' body) = body) := by
  constructor
  · unfold orchestrate
    simp only [orchestrateF, List.headD_cons]
    rw [if_neg (by simp)]
    simp only [List.drop_succ_cons, List.drop_zero, dropLast_append_single, hrule,
      if_pos rfl]
    simp
  · intro hne
    exact pySplitChar_joinChar '\n' body hne hnl

/-- C3 (witness): the amended theorem applied to the concrete rule group
`ltm rule /Common/r {` / `when X {` / `}` / `}`. -/
theorem c3_rule_group_round_trip_witness :
    (is_rule (get_title "ltm rule /Common/r \x7b") = true ∧
     (∀ l ∈ ["when X \x7b", "\x7d"], charIn '\n' l = false)) ∧
    (orchestrate ["ltm rule /Common/r \x7b", "when X \x7b", "\x7d", "\x7d"] =
       .ok (get_title "ltm rule /Common/r \x7b", .str (joinChar '\n' ["when X \x7b", "\x7d"])) ∧
     (["when X \x7b", "\x7d"] ≠ ([] : List String) →
       pySplitChar '\n' (joinChar '\n' ["when X \x7b", "\x7d"]) = ["when X \x7b", "\x7d"])) :=
  ⟨⟨by decide, by decide⟩,
   c3_rule_group_round_trip "ltm rule /Common/r \x7b" "\x7d" ["when X \x7b", "\x7d"]
     (by decide) (by decide)⟩

/-- C7: for every files mapping, `parse_files` either returns a complete
document or fails with exactly one wrapped error whose message is the fixed
explanatory prefix followed by the original error message; no partial
document is ever returned alongside a failure. -/
theorem c7_single_wrapped_error (files : List (String × String)) :
    (∃ d, parse_files files = .ok d) ∨
    (∃ msg, parse_files files =
      .error ("Error parsing input file. Error as following error:\n" ++ msg)) := by
  unfold parse_files
  cases h : parseLoop initState [] files with
  | ok d => exact Or.inl ⟨d, rfl⟩
  | error e => exact Or.inr ⟨e, rfl⟩

/-- C7 (witness): the dichotomy applied to a concrete one-file batch. -/
theorem c7_single_wrapped_error_witness :
    (∃ d, parse_files [("f.conf", "net self \x7b \x7d")] = .ok d) ∨
    (∃ msg, parse_files [("f.conf", "net self \x7b \x7d")] =
      .error ("Error parsing input file. Error as following error:\n" ++ msg)) :=
  c7_single_wrapped_error [("f.conf", "net self \x7b \x7d")]

/-- C10: the topology accumulator (synthesized lines, `topology_N` counter,
longest-match flag) is reset at the start of each file's preprocessing, so
both the preprocessing result and the whole per-file parse are independent
of whatever instance state earlier files left behind — no topology state
leaks from one file's parse into the next. -/
theorem c10_no_state_leak_between_files (s1 s2 : PState) (text : String) :
    preprocessFile s1 text = preprocessFile s2 text ∧
    processFile s1 text = processFile s2 text :=
  ⟨rfl, rfl⟩

/-- C10 (witness): preprocessing under a polluted instance state equals
preprocessing under the pristine `__init__` state on a concrete file. -/
theorem c10_no_state_leak_between_files_witness :
    preprocessFile { topology_arr := ["junk"]
                     topology_count := 7
                     longest_match_enabled := true } "net self \x7b \x7d" =
      preprocessFile initState "net self \x7b \x7d" ∧
    processFile { topology_arr := ["junk"]
                  topology_count := 7
                  longest_match_enabled := true } "net self \x7b \x7d" =
      processFile initState "net self \x7b \x7d" :=
  c10_no_state_leak_between_files
    { topology_arr := ["junk"]
      topology_count := 7
      longest_match_enabled := true } initState "net self \x7b \x7d"

/-- A key is in `upsert d kv` iff it is in `d` or is the new key. -/
lemma mem_keysOf_upsert (d : Doc) (kv : String × Value) (x : String) :
    x ∈ keysOf (upsert d kv) ↔ x ∈ keysOf d ∨ x = kv.1 := by
  induction d with
  | nil => simp [upsert, keysOf]
  | cons p t ih =>
    obtain ⟨k, v⟩ := p
    by_cases hk : k = kv.1
    · subst hk
      simp [upsert, keysOf]
      tauto
    · simp only [upsert, if_neg hk, keysOf, List.map_cons, List.mem_cons]
      rw [show keysOf (upsert t kv) = (upsert t kv).map Prod.fst from rfl] at ih
      rw [ih]
      tauto

/-- `upsert` preserves key uniqueness. -/
lemma nodup_keysOf_upsert (d : Doc) (kv : String × Value)
    (h : (keysOf d).Nodup) : (keysOf (upsert d kv)).Nodup := by
  induction d with
  | nil => simp [upsert, keysOf]
  | cons p t ih =>
    obtain ⟨k, v⟩ := p
    simp only [keysOf, List.map_cons, List.nodup_cons] at h
    by_cases hk : k = kv.1
    · subst hk
      simpa [upsert, keysOf, List.nodup_cons] using h
    · simp only [upsert, if_neg hk, keysOf, List.map_cons, List.nodup_cons]
      refine ⟨fun hmem => ?_, ih h.2⟩
      rcases (mem_keysOf_upsert t kv k).mp hmem with h1 | h1
      · exact h.1 h1
      · exact hk h1

/-- Folding `upsert` over any pair list preserves key uniqueness. -/
lemma nodup_keysOf_foldl (l : List (String × Value)) :
    ∀ d : Doc, (keysOf d).Nodup → (keysOf (l.foldl upsert d)).Nodup := by
  induction l with
  | nil => intro d h; simpa using h
  | cons kv t ih =>
    intro d h
    simpa [List.foldl_cons] using ih (upsert d kv) (nodup_keysOf_upsert d kv h)

/-- Looking up the just-upserted key gives the new value. -/
lemma lookupV_upsert_self (d : Doc) (n : String) (v : Value) :
    lookupV (upsert d (n, v)) n = some v := by
  induction d with
  | nil => simp [upsert, lookupV]
  | cons p t ih =>
    obtain ⟨k, w⟩ := p
    by_cases hk : k = n
    · subst hk; simp [upsert, lookupV]
    · simp [upsert, lookupV, hk, ih]

/-- Upserting a different key does not change a lookup. -/
lemma lookupV_upsert_ne (d : Doc) (k n : String) (v : Value) (hk : k ≠ n) :
    lookupV (upsert d (k, v)) n = lookupV d n := by
  induction d with
  | nil => simp [upsert, lookupV, hk]
  | cons p t ih =>
    obtain ⟨k2, w⟩ := p
    by_cases h2 : k2 = k
    · subst h2; simp [upsert, lookupV, hk]
    · simp [upsert, lookupV, h2, ih]

/-- Folding in pairs none of which carries key `n` does not change the
lookup of `n`. -/
lemma lookupV_foldl_not_mem (l : List (String × Value)) :
    ∀ d : Doc, (∀ p ∈ l, p.1 ≠ n) → lookupV (l.foldl upsert d) n = lookupV d n := by
  induction l with
  | nil => intro d _; simp
  | cons kv t ih =>
    intro d h
    obtain ⟨k, v⟩ := kv
    simp only [List.foldl_cons]
    rw [ih (upsert d (k, v)) (fun p hp => h p (by simp [hp]))]
    exact lookupV_upsert_ne d k n v (h (k, v) (by simp))

/-- Folding a key-unique pair list into any document makes the lookup of
any key of that list return that list's value. -/
lemma lookupV_foldl_of_lookup (l : List (String × Value)) :
    ∀ (d : Doc) (n : String) (v : Value), (keysOf l).Nodup →
      lookupV l n = some v → lookupV (l.foldl upsert d) n = some v := by
  induction l with
  | nil => intro d n v _ h; simp [lookupV] at h
  | cons kv t ih =>
    intro d n v hnd h
    obtain ⟨k, w⟩ := kv
    simp only [keysOf, List.map_cons, List.nodup_cons] at hnd
    simp only [lookupV] at h
    by_cases hk : k = n
    · subst hk
      simp at h
      simp only [List.foldl_cons]
      rw [lookupV_foldl_not_mem t (upsert d (k, w))
        (fun p hp he => hnd.1 (by rw [← he]; exact List.mem_map_of_mem Prod.fst hp))]
      rw [lookupV_upsert_self d k w, h]
    · rw [if_neg hk] at h
      simp only [List.foldl_cons]
      exact ih (upsert d (k, w)) n v hnd.2 h

/-- Every per-file dictionary produced by `processFile` is a fold of
`upsert` over the orchestrated pairs (hence has unique keys). -/
lemma processFile_doc_shape (st : PState) (t : String) (s : PState) (d : Doc)
    (h : processFile st t = .ok (s, d)) :
    ∃ pairs : List (String × Value), d = pairs.foldl upsert [] := by
  unfold processFile at h
  cases hp : preprocessFile st t with
  | error e => rw [hp] at h; simp at h
  | ok pr =>
    rw [hp] at h
    obtain ⟨st2, lines⟩ := pr
    dsimp only at h
    cases hg : group_objects lines with
    | error e => rw [hg] at h; simp at h
    | ok groups =>
      rw [hg] at h
      dsimp only at h
      cases hm : mapOrch groups with
      | error e => rw [hm] at h; simp at h
      | ok pairs =>
        rw [hm] at h
        dsimp only at h
        simp only [Except.ok.injEq, Prod.mk.injEq] at h
        exact ⟨pairs, h.2.symm⟩

/-- The keys of a per-file dictionary are unique. -/
lemma processFile_doc_nodup (st : PState) (t : String) (s : PState) (d : Doc)
    (h : processFile st t = .ok (s, d)) : (keysOf d).Nodup := by
  obtain ⟨pairs, rfl⟩ := processFile_doc_shape st t s d h
  exact nodup_keysOf_foldl pairs [] (by simp [keysOf])

/-- C9: for a batch of two (non-excluded) input files that both parse and
both define a root object named `nm`, `parse_files` returns a document in
which `nm` maps to the value parsed from the file appearing later in the
mapping's iteration order — last write wins on duplicate top-level names. -/
theorem c9_later_file_overwrites (n1 t1 n2 t2 nm : String) (s1 s2 : PState)
    (d1 d2 : Doc) (v1 v2 : Value)
    (he1 : excluded n1 = false) (he2 : excluded n2 = false)
    (h1 : processFile initState t1 = .ok (s1, d1))
    (h2 : processFile initState t2 = .ok (s2, d2))
    (_hv1 : lookupV d1 nm = some v1)
    (hv2 : lookupV d2 nm = some v2) :
    ∃ d, parse_files [(n1, t1), (n2, t2)] = .ok d ∧ lookupV d nm = some v2 := by
  have hnd2 : (keysOf d2).Nodup := processFile_doc_nodup initState t2 s2 d2 h2
  have hindep : processFile s1 t2 = processFile initState t2 := rfl
  refine ⟨d2.foldl upsert (d1.foldl upsert []), ?_, ?_⟩
  · unfold parse_files
    simp only [parseLoop, he1, he2, Bool.false_eq_true, if_false, h1, hindep, h2]
  · exact lookupV_foldl_of_lookup d2 (d1.foldl upsert []) nm v2 hnd2 hv2

/-- C9 (witness): the later of two files defining root object `foo` wins;
the first file gives `foo` the empty object, the second gives it the map
`{bar: baz}`, and the merged document holds the second. -/
theorem c9_later_file_overwrites_witness :
    excluded "a.conf" = false ∧ excluded "b.conf" = false ∧
    processFile initState "foo \x7b \x7d" = .ok (initState, [("foo", .obj [])]) ∧
    processFile initState "foo \x7b\n    bar baz\n\x7d" =
      .ok (initState, [("foo", .obj [("bar", .str "baz")])]) ∧
    lookupV [("foo", Value.obj [])] "foo" = some (.obj []) ∧
    lookupV [("foo", Value.obj [("bar", .str "baz")])] "foo" =
      some (.obj [("bar", .str "baz")]) ∧
    ∃ d, parse_files [("a.conf", "foo \x7b \x7d"), ("b.conf", "foo \x7b\n    bar baz\n\x7d")] =
      .ok d ∧ lookupV d "foo" = some (.obj [("bar", .str "baz")]) :=
  ⟨rfl, rfl, rfl, rfl, rfl, rfl,
   c9_later_file_overwrites "a.conf" "foo \x7b \x7d" "b.conf" "foo \x7b\n    bar baz\n\x7d"
     "foo" initState initState [("foo", .obj [])] [("foo", .obj [("bar", .str "baz")])]
     (.obj []) (.obj [("bar", .str "baz")]) rfl rfl rfl rfl rfl rfl⟩

/-- `psum` of a cons. -/
lemma psum_cons (x : String) (l : List String) :
    psum (x :: l) = effCount x + psum l := by
  simp [psum]

/-- If the running bracket balance stays strictly positive over every prefix
of the remaining lines (and no rule header aborts the scan), the grouping
scan exhausts the input and fails with Python's index error. -/
lemma scanGroup_exhausts (b : List String) :
    ∀ (count : Int) (k : Nat),
      (∀ j, j ≤ b.length → 0 < count + psum (b.take j)) →
      (∀ l ∈ b, is_rule l = false) →
      scanGroup false count k b = .error "list index out of range" := by
  induction b with
  | nil =>
    intro count k hpre _
    have h0 : 0 < count := by simpa [psum] using hpre 0 (by simp)
    unfold scanGroup
    rw [if_neg (by omega)]
  | cons x xs ih =>
    intro count k hpre hrule
    have h0 : 0 < count := by simpa [psum] using hpre 0 (by simp)
    unfold scanGroup
    rw [if_neg (by omega)]
    simp only [Bool.false_and, Bool.not_false, if_pos, hrule x (by simp),
      Bool.false_eq_true, if_false, ite_true]
    exact ih (count + effCount x) (k + 1)
      (fun j hj => by
        have h2 := hpre (j + 1) (by simpa using Nat.succ_le_succ hj)
        rw [List.take_succ_cons, psum_cons] at h2
        omega)
      (fun l hl => hrule l (by simp [hl]))

/-- If the running bracket balance stays strictly positive over the body
and a final `}` line brings it exactly to zero, the grouping scan stops at
that closing line, returning the body length plus one. -/
lemma scanGroup_closes (b : List String) :
    ∀ (count : Int) (k : Nat) (rest : List String),
      (∀ j, j ≤ b.length → 0 < count + psum (b.take j)) →
      count + psum b = 1 →
      (∀ l ∈ b, is_rule l = false) →
      scanGroup false count k (b ++ "\x7d" :: rest) = .ok (k + b.length + 1) := by
  induction b with
  | nil =>
    intro count k rest hpre hend _
    have h1 : count = 1 := by simpa [psum] using hend
    subst h1
    unfold scanGroup
    rw [if_neg (by omega)]
    have heff : effCount "\x7d" = -1 := rfl
    have hr : is_rule "\x7d" = false := rfl
    simp only [List.nil_append, Bool.false_and, Bool.not_false, ite_true, hr,
      Bool.false_eq_true, if_false, heff]
    unfold scanGroup
    rw [if_pos (by omega)]
    simp
  | cons x xs ih =>
    intro count k rest hpre hend hrule
    have h0 : 0 < count := by simpa [psum] using hpre 0 (by simp)
    unfold scanGroup
    rw [if_neg (by omega)]
    simp only [List.cons_append, Bool.false_and, Bool.not_false, ite_true,
      hrule x (by simp), Bool.false_eq_true, if_false]
    have := ih (count + effCount x) (k + 1) rest
      (fun j hj => by
        have h2 := hpre (j + 1) (by simpa using Nat.succ_le_succ hj)
        rw [List.take_succ_cons, psum_cons] at h2
        omega)
      (by rw [psum_cons] at hend; omega)
      (fun l hl => hrule l (by simp [hl]))
    rw [this]
    simp only [List.length_cons]
    congr 1
    omega

/-- A list without the four-column closing brace has no close index. -/
lemma firstCloseIdx_eq_none (ls : List String) (h : ∀ l ∈ ls, l ≠ "    \x7d") :
    firstCloseIdx ls = none := by
  induction ls with
  | nil => rfl
  | cons x t ih =>
    simp only [firstCloseIdx, if_neg (h x (by simp))]
    rw [ih (fun l hl => h l (by simp [hl]))]
    rfl

/-- A pattern matches at the head of itself followed by anything. -/
lemma leadMatch_refl_append (p : List Char) : ∀ rest, leadMatch p (p ++ rest) = true := by
  induction p with
  | nil => intro rest; rfl
  | cons c t ih => intro rest; simp [leadMatch, ih]

/-- The empty pattern occurs in every string. -/
lemma hasSub_nil : ∀ l : List Char, hasSub [] l = true
  | [] => rfl
  | _ :: _ => by simp [hasSub, leadMatch]

/-- The substring search finds the pattern wherever it occurs. -/
lemma hasSub_append (pat : List Char) :
    ∀ (pre suf : List Char), hasSub pat (pre ++ (pat ++ suf)) = true := by
  intro pre
  induction pre with
  | nil =>
    intro suf
    cases pat with
    | nil => simp [hasSub_nil]
    | cons p ps =>
      have h := leadMatch_refl_append (p :: ps) suf
      rw [List.cons_append] at h
      simp [hasSub, h]
  | cons a t ih =>
    intro suf
    simp [hasSub, ih suf]

/-- A string occurs as a substring of any enclosing concatenation. -/
lemma strIn_concat (pre mid suf : String) : strIn mid (pre ++ mid ++ suf) = true := by
  show hasSub mid.toList (pre ++ mid ++ suf).toList = true
  have h : (pre ++ mid ++ suf).toList = pre.toList ++ (mid.toList ++ suf.toList) := by
    show ((pre ++ mid) ++ suf).data = pre.data ++ (mid.data ++ suf.data)
    rw [String.data_append, String.data_append, List.append_assoc]
  rw [h]
  exact hasSub_append mid.toList pre.toList suf.toList

/-- C6 (amended): both brace-balancing scans fail hard when the balance never
returns to zero, and no partial document survives (both are `Except` errors),
but only the nested-object scan names the offending line.  First conjunct:
in root grouping, a column-0 header opening a group whose remaining lines
keep the balance positive (and contain no rule header) makes `group_objects`
fail with Python's unnamed `list index out of range` error.  Second
conjunct: in nested-object construction, a body line ending in `{` with no
four-column closing line in the rest of the body makes `orchestrate` fail
with the `Missing or mis-indented '}'` error, whose message contains the
offending line. -/
theorem c6_unbalanced_braces_fail (hdr : String) (body : List String)
    (l0 last : String) (mid : List String) :
    ((pyStartsWith hdr " " = false) → (pyEndsWith (pstrip hdr) "\x7b" = true) →
     (charIn '\x7d' hdr = false) → (is_rule hdr = false) →
     (∀ j, j ≤ body.length → 0 < 1 + psum (body.take j)) →
     (∀ l ∈ body, is_rule l = false) →
     group_objects (hdr :: body) = .error "list index out of range") ∧
    ((is_rule (get_title hdr) = false) →
     (strIn "monitor min" (get_title hdr) = false) →
     (strIn "cli script" (get_title hdr) = false) →
     (strIn "sys crypto cert-order-manager" (get_title hdr) = false) →
     (pyEndsWith l0 "\x7b" = true) → (mid ≠ []) →
     (∀ l ∈ l0 :: mid, l ≠ "    \x7d") →
     orchestrate (hdr :: l0 :: (mid ++ [last])) =
       .error ("Missing or mis-indented \x27\x7d\x27 for line: \x27" ++ l0 ++ "\x27") ∧
     strIn l0 ("Missing or mis-indented \x27\x7d\x27 for line: \x27" ++ l0 ++ "\x27") = true) := by
  constructor
  · intro h1 h2 h3 h4 hb hr
    show groupLoopF ((hdr :: body).length) (hdr :: body) = _
    simp only [List.length_cons, groupLoopF, h1, h2, h3, Bool.and_false,
      Bool.false_and, Bool.and_true, Bool.not_false, Bool.and_self,
      Bool.false_eq_true, if_false, if_true, h4]
    rw [scanGroup_exhausts body 1 0 hb hr]
  · intro k1 k2 k3 k4 hend hmid hno
    constructor
    · have hdl : (l0 :: (mid ++ [last])).dropLast = l0 :: mid := by
        rw [← List.cons_append]
        exact dropLast_append_single _ _
      have hb1 : (mid.length + 1 + 1 ≠ 1) := by omega
      have hb2 : (mid.length + 1 ≠ 1) := by
        cases mid with
        | nil => exact absurd rfl hmid
        | cons a t => simp
      unfold orchestrate
      simp only [orchestrateF, List.headD_cons, List.length_cons, List.length_append,
        List.drop_succ_cons, List.drop_zero, hdl, k1, k2, k3, k4,
        Bool.or_self, Bool.false_eq_true, if_false]
      rw [if_neg (by omega)]
      simp only [buildGo, hend, hb2, List.length_cons, Bool.true_and, decide_eq_true_eq,
        if_true, ite_true, firstCloseIdx_eq_none (l0 :: mid) hno]
      simp [hb2]
      rfl
    · exact strIn_concat "Missing or mis-indented \x27\x7d\x27 for line: \x27" l0 "\x27"

/-- C6 (counterexample): the claim fails for the root-grouping scan.  On the
one-line input `foo {` the grouper's scan runs past the end of the input and
the fatal error is Python's bare `list index out of range`, which does not
name the offending header line `foo {` (the nested-object scan of
`orchestrate` is the only one that names the line). -/
theorem c6_group_scan_error_is_anonymous :
    group_objects ["foo \x7b"] = .error "list index out of range" ∧
    strIn "foo \x7b" "list index out of range" = false := ⟨rfl, by decide⟩

/-- C6 (witness): the amended theorem applied to the concrete unclosed
header `net vlan x {` (first conjunct, empty remainder) and to the concrete
group `dev x {` / `    sub {` / `    a b` / `}` whose nested line `    sub {`
has no matching four-column close (second conjunct). -/
theorem c6_unbalanced_braces_fail_witness :
    (group_objects ["net vlan x \x7b"] = .error "list index out of range") ∧
    (orchestrate ["dev x \x7b", "    sub \x7b", "    a b", "\x7d"] =
       .error ("Missing or mis-indented \x27\x7d\x27 for line: \x27" ++ "    sub \x7b" ++ "\x27") ∧
     strIn "    sub \x7b"
       ("Missing or mis-indented \x27\x7d\x27 for line: \x27" ++ "    sub \x7b" ++ "\x27") = true) :=
  ⟨(c6_unbalanced_braces_fail "net vlan x \x7b" [] "" "" []).1
      (by decide) (by decide) (by decide) (by decide)
      (fun j hj => by simp [psum]) (by intro l hl; cases hl),
   (c6_unbalanced_braces_fail "dev x \x7b" [] "    sub \x7b" "\x7d" ["    a b"]).2
      (by decide) (by decide) (by decide) (by decide) (by decide)
      (by decide) (by decide)⟩

/-- Taking a left part plus `n` more elements of a concatenation. -/
lemma take_len_plus {α : Type} (l1 : List α) (n : Nat) :
    ∀ l2 : List α, (l1 ++ l2).take (l1.length + n) = l1 ++ l2.take n := by
  induction l1 with
  | nil => intro l2; simp
  | cons a t ih =>
    intro l2
    simp only [List.cons_append, List.length_cons, List.take]
    rw [show t.length + 1 + n = (t.length + n) + 1 by omega]
    simp [ih l2]

/-- Dropping a left part plus `n` more elements of a concatenation. -/
lemma drop_len_plus {α : Type} (l1 : List α) (n : Nat) :
    ∀ l2 : List α, (l1 ++ l2).drop (l1.length + n) = l2.drop n := by
  induction l1 with
  | nil => intro l2; simp
  | cons a t ih =>
    intro l2
    simp only [List.cons_append, List.length_cons]
    rw [show t.length + 1 + n = (t.length + n) + 1 by omega]
    simp [List.drop, ih l2]

/-- A good root block at the head of the line list is consumed into exactly
one group, and grouping continues after it. -/
lemma groupLoopF_block (blk : RootBlock) (hgood : goodBlock blk = true)
    (rest : List String) (fuel : Nat) :
    groupLoopF (fuel + 1) (blockLines blk ++ rest) =
      (groupLoopF fuel rest).map (fun gs => blockLines blk :: gs) := by
  cases blk with
  | single l =>
    simp only [goodBlock, Bool.and_eq_true, Bool.not_eq_true'] at hgood
    simp [blockLines, groupLoopF, hgood.1.1.1, hgood.1.1.2, hgood.1.2]
  | multi h b =>
    simp only [goodBlock, Bool.and_eq_true, Bool.not_eq_true'] at hgood
    obtain ⟨⟨⟨⟨⟨⟨h1, h2⟩, h3⟩, h4⟩, h5⟩, h6⟩, h7⟩ := hgood
    have hpre : ∀ j, j ≤ b.length → 0 < 1 + psum (b.take j) := by
      intro j hj
      have := (List.all_eq_true.mp h6) j (List.mem_range.mpr (by omega))
      exact of_decide_eq_true this
    have hend : (1 : Int) + psum b = 1 := by
      have := of_decide_eq_true h7
      omega
    have hrule : ∀ l ∈ b, is_rule l = false := by
      intro l hl
      have hx := (List.all_eq_true.mp h5) l hl
      simp only [Bool.and_eq_true, Bool.not_eq_true'] at hx
      exact hx.1
    have harr : blockLines (RootBlock.multi h b) ++ rest = h :: (b ++ "\x7d" :: rest) := by
      simp [blockLines]
    rw [harr]
    simp only [groupLoopF, h1, h2, h3, Bool.and_false, Bool.false_and, Bool.and_true,
      Bool.not_false, Bool.and_self, Bool.false_eq_true, if_false, if_true, h4]
    rw [scanGroup_closes b 1 0 rest hpre hend hrule]
    dsimp only
    have htake : (b ++ "\x7d" :: rest).take (0 + b.length + 1) = b ++ ["\x7d"] := by
      rw [show 0 + b.length + 1 = b.length + 1 by omega]
      simp [take_len_plus b 1 ("\x7d" :: rest)]
    have hdrop : (b ++ "\x7d" :: rest).drop (0 + b.length + 1) = rest := by
      rw [show 0 + b.length + 1 = b.length + 1 by omega]
      simp [drop_len_plus b 1 ("\x7d" :: rest)]
    rw [htake, hdrop]
    simp [blockLines]

/-- Every block contributes at least one line. -/
lemma blocks_length_le (blocks : List RootBlock) :
    blocks.length ≤ (linesOfBlocks blocks).length := by
  induction blocks with
  | nil => simp [linesOfBlocks]
  | cons blk bs ih =>
    have h1 : 1 ≤ (blockLines blk).length := by
      cases blk <;> simp [blockLines]
    have hl : linesOfBlocks (blk :: bs) = blockLines blk ++ linesOfBlocks bs := by
      simp [linesOfBlocks]
    rw [hl]
    simp only [List.length_append, List.length_cons]
    omega

/-- Grouping a sequence of good root blocks yields exactly one group per
block, given enough fuel. -/
lemma groupLoopF_blocks (blocks : List RootBlock) :
    ∀ fuel : Nat, (∀ blk ∈ blocks, goodBlock blk = true) → blocks.length ≤ fuel →
      groupLoopF fuel (linesOfBlocks blocks) = .ok (blocks.map blockLines) := by
  induction blocks with
  | nil =>
    intro fuel _ _
    cases fuel <;> rfl
  | cons blk bs ih =>
    intro fuel hgood hfuel
    match fuel with
    | 0 => simp at hfuel
    | f + 1 =>
      have hl : linesOfBlocks (blk :: bs) = blockLines blk ++ linesOfBlocks bs := by
        simp [linesOfBlocks]
      rw [hl, groupLoopF_block blk (hgood blk (by simp)) (linesOfBlocks bs) f]
      rw [ih f (fun b hb => hgood b (by simp [hb]))
        (by simp only [List.length_cons] at hfuel; omega)]
      rfl

/-- Each good block contributes exactly one column-0 header line. -/
lemma filter_header_block (blk : RootBlock) (hgood : goodBlock blk = true) :
    ((blockLines blk).filter isHeaderLine).length = 1 := by
  cases blk with
  | single l =>
    simp only [goodBlock, Bool.and_eq_true, Bool.not_eq_true'] at hgood
    have hh : isHeaderLine l = true := by
      simp [isHeaderLine, hgood.1.1.1, hgood.1.1.2, hgood.1.2]
    simp [blockLines, List.filter, hh]
  | multi h b =>
    simp only [goodBlock, Bool.and_eq_true, Bool.not_eq_true'] at hgood
    obtain ⟨⟨⟨⟨⟨⟨h1, h2⟩, h3⟩, h4⟩, h5⟩, h6⟩, h7⟩ := hgood
    have hh : isHeaderLine h = true := by
      simp [isHeaderLine, h1, h2]
    have hclose : isHeaderLine "\x7d" = false := by decide
    have hbody : ∀ l ∈ b, isHeaderLine l = false := by
      intro l hl
      have hx := (List.all_eq_true.mp h5) l hl
      simp only [Bool.and_eq_true, Bool.not_eq_true'] at hx
      exact hx.2
    simp only [blockLines, List.filter_cons, hh, List.filter_append, if_true]
    have hb0 : b.filter isHeaderLine = [] := List.filter_eq_nil_iff.mpr
      (fun l hl => by simp [hbody l hl])
    simp [hb0, List.filter, hclose]

/-- C2: for every sequence of well-formed, brace-balanced root objects with
no embedded script/rule headers, `group_objects` returns exactly one group
per column-0 object header, and the concatenation of the groups, in order,
is the input line sequence verbatim. -/
theorem c2_grouping_reconstructs (blocks : List RootBlock)
    (h : ∀ blk ∈ blocks, goodBlock blk = true) :
    ∃ G, group_objects (linesOfBlocks blocks) = .ok G ∧
      G.flatten = linesOfBlocks blocks ∧
      G.length = ((linesOfBlocks blocks).filter isHeaderLine).length := by
  refine ⟨blocks.map blockLines, ?_, rfl, ?_⟩
  · exact groupLoopF_blocks blocks (linesOfBlocks blocks).length h (blocks_length_le blocks)
  · rw [List.length_map]
    induction blocks with
    | nil => simp [linesOfBlocks]
    | cons blk bs ih =>
      have hl : linesOfBlocks (blk :: bs) = blockLines blk ++ linesOfBlocks bs := by
        simp [linesOfBlocks]
      rw [hl, List.filter_append, List.length_append, List.length_cons,
        filter_header_block blk (h blk (by simp)), ih (fun b hb => h b (by simp [hb]))]
      omega

/-- C2 (witness): the property applied to a concrete two-block input, one
multi-line `net self one { ... }` object and one single-line `foo { }`
object. -/
theorem c2_grouping_reconstructs_witness :
    (∀ blk ∈ [RootBlock.multi "net self one \x7b" ["    address ten"],
              RootBlock.single "foo \x7b \x7d"], goodBlock blk = true) ∧
    ∃ G, group_objects (linesOfBlocks
        [RootBlock.multi "net self one \x7b" ["    address ten"],
         RootBlock.single "foo \x7b \x7d"]) = .ok G ∧
      G.flatten = linesOfBlocks
        [RootBlock.multi "net self one \x7b" ["    address ten"],
         RootBlock.single "foo \x7b \x7d"] ∧
      G.length = ((linesOfBlocks
        [RootBlock.multi "net self one \x7b" ["    address ten"],
         RootBlock.single "foo \x7b \x7d"]).filter isHeaderLine).length :=
  ⟨by decide,
   c2_grouping_reconstructs
     [RootBlock.multi "net self one \x7b" ["    address ten"],
      RootBlock.single "foo \x7b \x7d"] (by decide)⟩
